import Mathlib

/-!
# Public-key transcoding (`src/openssh.c`)

A shallow embedding of the big-number to byte-buffer helper, the RSA and ECDSA
build / decompose entry points and the curve-name tables of `src/openssh.c`,
followed by the properties established about them.

Conventions of the embedding

* a `BIGNUM` built by `BN_bin2bn` is never negative, so it is a `Nat`;
* a C `int` is an `Int` (the values that occur are byte counts of existing
  buffers, far from the `int` range);
* a raw vector under construction is a list of cells, a cell being `none` until
  it has been written (`allocVector` does not initialise a `RAWSXP`);
* a call ends in a value, in an R error, or in undefined behaviour of the C
  program: `Except Fault`.
-/

set_option autoImplicit false
set_option exponentiation.threshold 1024

namespace Openssh

/-! ## Outcomes -/

/-- The ways a call can end without returning a value. -/
inductive Fault where
  /-- R error raised by `bail(0)`. -/
  | bail
  /-- R error raised by `allocVector` for a negative length. -/
  | negativeLength
  /-- R error raised by `error("Failed to construct EC key. ...")`. -/
  | invalidPoint
  /-- Undefined behaviour: a write outside the allocated vector or a null dereference. -/
  | undefinedBehaviour
  /-- A vector is returned with a cell that was never written. -/
  | uninitialised
  deriving DecidableEq

/-- Outcome of a call. -/
abbrev Res (α : Type) := Except Fault α

instance instDecidableEqRes {α : Type} [DecidableEq α] : DecidableEq (Res α)
  | .ok a, .ok b =>
    if h : a = b then isTrue (congrArg Except.ok h)
    else isFalse (fun h2 => h (Except.ok.inj h2))
  | .error e, .error f =>
    if h : e = f then isTrue (congrArg Except.error h)
    else isFalse (fun h2 => h (Except.error.inj h2))
  | .ok _, .error _ => isFalse (fun h => Except.noConfusion h)
  | .error _, .ok _ => isFalse (fun h => Except.noConfusion h)

/-- An R error was raised (as opposed to a value or undefined behaviour). -/
def Fault.isRError : Fault → Bool
  | .bail => true
  | .negativeLength => true
  | .invalidPoint => true
  | .undefinedBehaviour => false
  | .uninitialised => false

/-- Modelled from the spec: `bail` is declared in `utils.h`, which is not under
`src/`; section 7 of the specification says every failure aborts the current
call with an error and produces no output. `bail(success)` raises when its
argument is zero and returns otherwise. -/
def bail (success : Int) : Res Unit :=
  if success = 0 then .error .bail else .ok ()

/-! ## Bytes and raw vectors -/

/-- An `unsigned char`. -/
abbrev Byte := Fin 256

/-- The low eight bits of a number, `(unsigned char) l & 0xff`. -/
def lowByte (n : Nat) : Byte := ⟨n % 256, Nat.mod_lt n (by decide)⟩

/-- A raw vector under construction. -/
abbrev Buffer := List (Option Byte)

/-- Model of `allocVector(RAWSXP, len)`: an R error for a negative length, otherwise
`len` cells with unspecified content. -/
def allocVector (len : Int) : Res Buffer :=
  if len < 0 then .error .negativeLength else .ok (List.replicate len.toNat none)

/-- C conversion of an `int` to `size_t` (64 bits). -/
def to_size_t (n : Int) : Nat := (n % 2 ^ 64).toNat

/-- Write `data` into `buf` at offset `off`; a write that leaves the vector is
undefined behaviour. -/
def writeAt (buf : Buffer) (off : Int) (data : List Byte) : Res Buffer :=
  if 0 ≤ off ∧ off + data.length ≤ buf.length then
    .ok (buf.take off.toNat ++ data.map some ++ buf.drop (off.toNat + data.length))
  else .error .undefinedBehaviour

/-- Model of `memset(buf + off, c, n)`: the count is converted to `size_t`. -/
def memset (buf : Buffer) (off : Int) (c : Byte) (n : Int) : Res Buffer :=
  if 0 ≤ off ∧ off + to_size_t n ≤ buf.length then
    .ok (buf.take off.toNat ++ List.replicate (to_size_t n) (some c)
          ++ buf.drop (off.toNat + to_size_t n))
  else .error .undefinedBehaviour

/-- The content of a finished raw vector: every cell must have been written. -/
def contents : Buffer → Res (List Byte)
  | [] => .ok []
  | none :: _ => .error .uninitialised
  | some b :: rest =>
    match contents rest with
    | .ok bs => .ok (b :: bs)
    | .error f => .error f

/-! ## The big-number library (`openssl/bn.h`) -/

/-- Bit length by repeated halving, `fuel` bounding the number of steps. -/
def bitLength : Nat → Nat → Nat
  | 0, _ => 0
  | fuel + 1, n => if n = 0 then 0 else bitLength fuel (n / 2) + 1

/-- Model of `BN_num_bits`: number of significant bits, 0 for zero. -/
def BN_num_bits (a : Nat) : Nat := bitLength a a

/-- The macro `BN_num_bytes(a)` is `((BN_num_bits(a)+7)/8)`. -/
def BN_num_bytes (a : Nat) : Nat := (BN_num_bits a + 7) / 8

/-- The `k` low-order bytes of `a`, most significant first. -/
def bigEndian : Nat → Nat → List Byte
  | 0, _ => []
  | k + 1, a => bigEndian k (a / 256) ++ [lowByte a]

/-- Model of `BN_bn2bin`: the `BN_num_bytes(a)` bytes of `a`, most significant first. -/
def BN_bn2bin (a : Nat) : List Byte := bigEndian (BN_num_bytes a) a

/-- Model of `BN_bin2bn`: big-endian parse of a byte buffer; the empty buffer is zero. -/
def BN_bin2bn (s : List Byte) : Nat := s.foldl (fun acc b => acc * 256 + b.val) 0

/-- Drop the leading zero bytes of a buffer. -/
def stripLeadingZeros : List Byte → List Byte
  | [] => []
  | b :: rest => if b = 0 then stripLeadingZeros rest else b :: rest

/-- Left-pad a buffer with zero bytes up to `width` bytes. -/
def leftPad (width : Nat) (s : List Byte) : List Byte :=
  List.replicate (width - s.length) 0 ++ s

/-! ## `bignum_to_r_size` and `bignum_to_r` -/

/-- Function `bignum_to_r_size`, lines 9 to 21. -/
def bignum_to_r_size (bn : Nat) (bytes : Int) : Res (List Byte) := do
  let bits : Int := BN_num_bits bn
  let bytes : Int := if bytes = 0 then (bits / 8) + 1 else bytes
  let numbytes : Int := BN_num_bytes bn
  let diff : Int := bytes - numbytes
  let res ← allocVector bytes
  let res ← memset res 0 0 diff
  let ptr : Int := 0 + diff
  let res ← writeAt res ptr (BN_bn2bin bn)
  contents res

/-- Function `bignum_to_r`, lines 23 to 25. -/
def bignum_to_r (bn : Nat) : Res (List Byte) :=
  bignum_to_r_size bn 0

/-! ## Curve tables, lines 87 to 121 -/

/-- Constant `NID_X9_62_prime256v1` of `openssl/obj_mac.h`. -/
def NID_X9_62_prime256v1 : Int := 415

/-- Constant `NID_secp384r1` of `openssl/obj_mac.h`. -/
def NID_secp384r1 : Int := 715

/-- Constant `NID_secp521r1` of `openssl/obj_mac.h`. -/
def NID_secp521r1 : Int := 716

/-- Function `my_nist2nid`, lines 88 to 97; `strcmp` is equality of the two strings. -/
def my_nist2nid (name : String) : Int :=
  if name = "P-256" then NID_X9_62_prime256v1
  else if name = "P-384" then NID_secp384r1
  else if name = "P-521" then NID_secp521r1
  else 0

/-- Function `my_nid2nist`, lines 99 to 109. -/
def my_nid2nist (nid : Int) : String :=
  if nid = NID_X9_62_prime256v1 then "P-256"
  else if nid = NID_secp384r1 then "P-384"
  else if nid = NID_secp521r1 then "P-521"
  else ""

/-- Function `nid_keysize`, lines 111 to 121. -/
def nid_keysize (nid : Int) : Int :=
  if nid = NID_X9_62_prime256v1 then 32
  else if nid = NID_secp384r1 then 48
  else if nid = NID_secp521r1 then 66
  else 0

/-- Size in bits of the prime field of the three curves (FIPS 186), 0 for any
other identifier. -/
def field_bits (nid : Int) : Nat :=
  if nid = NID_X9_62_prime256v1 then 256
  else if nid = NID_secp384r1 then 384
  else if nid = NID_secp521r1 then 521
  else 0

/-! ## The key library (`openssl/pem.h`), a parameter of the embedding -/

/-- The fields of an `RSA` structure that the code touches. -/
structure RSA where
  /-- Public exponent `rsa->e`. -/
  e : Nat
  /-- Modulus `rsa->n`. -/
  n : Nat
  deriving DecidableEq

/-- An `EC_POINT`. -/
inductive EC_POINT where
  /-- Point at infinity. -/
  | infinity
  /-- Point with affine coordinates. -/
  | affine (x y : Nat)
  deriving DecidableEq

/-- An `EC_KEY` holding a public key. -/
structure EC_KEY where
  /-- What `EC_GROUP_get_curve_name` returns for the group of the key. -/
  curve_name : Int
  /-- Public point. -/
  pub_key : EC_POINT
  deriving DecidableEq

/-- An `EVP_PKEY`. -/
inductive EVP_PKEY where
  /-- RSA key. -/
  | rsa (key : RSA)
  /-- Elliptic-curve key. -/
  | ec (key : EC_KEY)
  /-- Key of another algorithm. -/
  | other
  deriving DecidableEq

/-- What an `i2d_*` call leaves behind: its return value and the buffer it
allocated. -/
structure Encoded where
  /-- Returned length. -/
  len : Int
  /-- Allocated buffer. -/
  buf : List Byte
  deriving DecidableEq

/-- The DER codec and the curve arithmetic of the cryptographic library. -/
structure Crypto where
  /-- Encoder `i2d_RSA_PUBKEY`. -/
  i2d_RSA_PUBKEY : RSA → Encoded
  /-- Decoder `d2i_RSA_PUBKEY`, `none` for a null result. -/
  d2i_RSA_PUBKEY : List Byte → Option RSA
  /-- Call of `EC_KEY_set_public_key_affine_coordinates` on the curve `nid`: whether the
  point is accepted. -/
  EC_KEY_set_public_key_affine_coordinates : Int → Nat → Nat → Bool
  /-- Encoder `i2d_EC_PUBKEY`. -/
  i2d_EC_PUBKEY : EC_KEY → Encoded
  /-- Decoder `d2i_PUBKEY`, `none` for a null result. -/
  d2i_PUBKEY : List Byte → Option EVP_PKEY

/-- The C test `!!p` of a pointer. -/
def notNull {α : Type} : Option α → Int
  | some _ => 1
  | none => 0

/-- Model of `EVP_PKEY_get1_EC_KEY`: null unless the key is an elliptic-curve key. -/
def EVP_PKEY_get1_EC_KEY : EVP_PKEY → Option EC_KEY
  | .ec key => some key
  | _ => none

/-- Model of `EC_POINT_get_affine_coordinates_GFp`: fails on the point at infinity. -/
def EC_POINT_get_affine_coordinates_GFp : EC_POINT → Option (Nat × Nat)
  | .affine x y => some (x, y)
  | .infinity => none

/-- Model of `memcpy(dst, src, n)` into the start of a fresh vector. -/
def memcpy (dst : Buffer) (src : List Byte) (n : Int) : Res Buffer :=
  if to_size_t n ≤ src.length then writeAt dst 0 (src.take (to_size_t n))
  else .error .undefinedBehaviour

/-- The common tail of the three builders: `bail(len)`, allocate, copy. -/
def copyEncoded (enc : Encoded) : Res (List Byte) := do
  bail enc.len
  let res ← allocVector enc.len
  let res ← memcpy res enc.buf enc.len
  contents res

/-! ## RSA, lines 28 to 52 -/

/-- Function `R_rsa_build`, lines 28 to 41. -/
def R_rsa_build (lib : Crypto) (expdata moddata : List Byte) : Res (List Byte) := do
  let e := BN_bin2bn expdata
  bail (notNull (some e))
  let n := BN_bin2bn moddata
  bail (notNull (some n))
  let rsa : RSA := { e := e, n := n }
  copyEncoded (lib.i2d_RSA_PUBKEY rsa)

/-- Function `R_rsa_decompose`, lines 43 to 52. -/
def R_rsa_decompose (lib : Crypto) (bin : List Byte) : Res (List (List Byte)) := do
  let decoded := lib.d2i_RSA_PUBKEY bin
  bail (notNull decoded)
  match decoded with
  | none => .error .undefinedBehaviour
  | some rsa =>
    let r0 ← bignum_to_r rsa.e
    let r1 ← bignum_to_r rsa.n
    pure [r0, r1]

/-! ## ECDSA, lines 123 to 161 -/

/-- Function `R_ecdsa_build`, lines 123 to 137. -/
def R_ecdsa_build (lib : Crypto) (x y : List Byte) (nist : String) : Res (List Byte) := do
  let nid := my_nist2nid nist
  bail nid
  let bx := BN_bin2bn x
  let by_ := BN_bin2bn y
  if !lib.EC_KEY_set_public_key_affine_coordinates nid bx by_ then
    throw Fault.invalidPoint
  let pubkey : EC_KEY := { curve_name := nid, pub_key := .affine bx by_ }
  copyEncoded (lib.i2d_EC_PUBKEY pubkey)

/-- The list returned by `R_ecdsa_decompose`. -/
structure EcdsaParts where
  /-- Element 0: curve name. -/
  name : String
  /-- Element 1: x coordinate. -/
  x : List Byte
  /-- Element 2: y coordinate. -/
  y : List Byte
  deriving DecidableEq

/-- Function `R_ecdsa_decompose`, lines 139 to 161. -/
def R_ecdsa_decompose (lib : Crypto) (input : List Byte) : Res EcdsaParts := do
  let pkey := lib.d2i_PUBKEY input
  bail (notNull pkey)
  match pkey.bind EVP_PKEY_get1_EC_KEY with
  | none => .error .undefinedBehaviour
  | some ec =>
    let nid := ec.curve_name
    let keysize := nid_keysize nid
    let coords := EC_POINT_get_affine_coordinates_GFp ec.pub_key
    bail (notNull coords)
    match coords with
    | none => .error .undefinedBehaviour
    | some (x, y) =>
      let r1 ← bignum_to_r_size x keysize
      let r2 ← bignum_to_r_size y keysize
      pure { name := my_nid2nist nid, x := r1, y := r2 }

/-- The encoder succeeded and left the blob `der`: the returned `int` is the
positive length of the buffer. -/
def Encoded.yields (enc : Encoded) (der : List Byte) : Prop :=
  enc.len = (der.length : Int) ∧ enc.buf = der ∧ 0 < der.length ∧ der.length < 2 ^ 31

instance (enc : Encoded) (der : List Byte) : Decidable (enc.yields der) := by
  unfold Encoded.yields
  infer_instance

/-! ## A reference instance of the key library

DER for the SubjectPublicKeyInfo of RSA keys and of elliptic-curve keys on a
named curve with an uncompressed point (X.690, RFC 3279, RFC 5480, SEC 1),
and the curve equation for point validation. It instantiates the `Crypto`
parameter in the concrete evaluations below; the general statements hold for
every instance. -/

namespace Reference

/-- DER length octets. -/
def derLength (n : Nat) : List Byte :=
  if n < 128 then [lowByte n]
  else lowByte (128 + (BN_bn2bin n).length) :: BN_bn2bin n

/-- A DER element: tag, length, content. -/
def derElement (tag : Byte) (content : List Byte) : List Byte :=
  tag :: (derLength content.length ++ content)

/-- DER INTEGER of a non-negative number: minimal two's-complement content. -/
def derInteger (n : Nat) : List Byte :=
  derElement 0x02 (leftPad (BN_num_bits n / 8 + 1) (BN_bn2bin n))

/-- DER BIT STRING with no unused bits. -/
def derBitString (content : List Byte) : List Byte :=
  derElement 0x03 (0x00 :: content)

/-- Read one element: tag, content and what follows it. -/
def readElement : List Byte → Option (Byte × List Byte × List Byte)
  | tag :: first :: rest =>
    if first.val < 128 then
      if first.val ≤ rest.length then
        some (tag, rest.take first.val, rest.drop first.val)
      else none
    else
      let k := first.val - 128
      if k ≤ rest.length then
        let len := BN_bin2bn (rest.take k)
        let body := rest.drop k
        if len ≤ body.length then some (tag, body.take len, body.drop len) else none
      else none
  | _ => none

/-- Read a DER INTEGER holding a non-negative number. -/
def readInteger (s : List Byte) : Option (Nat × List Byte) :=
  match readElement s with
  | some (tag, content, rest) =>
    match content with
    | [] => none
    | b :: _ => if tag = 0x02 ∧ b.val < 128 then some (BN_bin2bn content, rest) else none
  | none => none

/-- AlgorithmIdentifier content of `rsaEncryption` with NULL parameters. -/
def rsaAlgorithm : List Byte :=
  [0x06, 0x09, 0x2a, 0x86, 0x48, 0x86, 0xf7, 0x0d, 0x01, 0x01, 0x01, 0x05, 0x00]

/-- Object identifier `id-ecPublicKey`. -/
def ecPublicKey : List Byte :=
  [0x06, 0x07, 0x2a, 0x86, 0x48, 0xce, 0x3d, 0x02, 0x01]

/-- A named curve `y² = x³ + a x + b` over the prime field of order `p`. -/
structure Curve where
  /-- Numeric identifier in `openssl/obj_mac.h`. -/
  nid : Int
  /-- DER object identifier. -/
  oid : List Byte
  /-- Field prime. -/
  p : Nat
  /-- Coefficient `a`. -/
  a : Nat
  /-- Coefficient `b`. -/
  b : Nat
  /-- Bytes of a field element. -/
  size : Nat

/-- Curve `prime256v1` (NIST P-256). -/
def prime256v1 : Curve :=
  { nid := 415
    oid := [0x06, 0x08, 0x2a, 0x86, 0x48, 0xce, 0x3d, 0x03, 0x01, 0x07]
    p := 2 ^ 256 - 2 ^ 224 + 2 ^ 192 + 2 ^ 96 - 1
    a := 2 ^ 256 - 2 ^ 224 + 2 ^ 192 + 2 ^ 96 - 4
    b := 0x5ac635d8aa3a93e7b3ebbd55769886bc651d06b0cc53b0f63bce3c3e27d2604b
    size := 32 }

/-- Curve `secp384r1` (NIST P-384). -/
def secp384r1 : Curve :=
  { nid := 715
    oid := [0x06, 0x05, 0x2b, 0x81, 0x04, 0x00, 0x22]
    p := 2 ^ 384 - 2 ^ 128 - 2 ^ 96 + 2 ^ 32 - 1
    a := 2 ^ 384 - 2 ^ 128 - 2 ^ 96 + 2 ^ 32 - 4
    b := 0xb3312fa7e23ee7e4988e056be3f82d19181d9c6efe8141120314088f5013875ac656398d8a2ed19d2a85c8edd3ec2aef
    size := 48 }

/-- Curve `secp521r1` (NIST P-521). -/
def secp521r1 : Curve :=
  { nid := 716
    oid := [0x06, 0x05, 0x2b, 0x81, 0x04, 0x00, 0x23]
    p := 2 ^ 521 - 1
    a := 2 ^ 521 - 4
    b := 0x0051953eb9618e1c9a1f929a21a0b68540eea2da725b99b315f3b8b489918ef109e156193951ec7e937b1652c0bd3bb1bf073573df883d2c34f1ef451fd46b503f00
    size := 66 }

/-- Curve `secp256k1`, which the library knows and the curve tables of
`openssh.c` do not. -/
def secp256k1 : Curve :=
  { nid := 714
    oid := [0x06, 0x05, 0x2b, 0x81, 0x04, 0x00, 0x0a]
    p := 2 ^ 256 - 2 ^ 32 - 977
    a := 0
    b := 7
    size := 32 }

/-- The curves of the reference library. -/
def curves : List Curve := [prime256v1, secp384r1, secp521r1, secp256k1]

/-- The point lies in the field and satisfies the curve equation. -/
def Curve.onCurve (c : Curve) (x y : Nat) : Bool :=
  decide (x < c.p) && decide (y < c.p) &&
    decide ((y * y) % c.p = (x * x * x + c.a * x + c.b) % c.p)

/-- Wrap a finished encoding as the result of an `i2d_*` call. -/
def encoded (der : List Byte) : Encoded := { len := der.length, buf := der }

/-- Encode an RSA public key. -/
def i2d_RSA_PUBKEY (key : RSA) : Encoded :=
  encoded (derElement 0x30 (derElement 0x30 rsaAlgorithm
    ++ derBitString (derElement 0x30 (derInteger key.n ++ derInteger key.e))))

/-- Decode the content of the BIT STRING of an RSA public key. -/
def readRSAPublicKey (s : List Byte) : Option RSA :=
  match readElement s with
  | some (tag, body, _) =>
    if tag = 0x30 then
      match readInteger body with
      | some (n, rest) =>
        match readInteger rest with
        | some (e, _) => some { e := e, n := n }
        | none => none
      | none => none
    else none
  | none => none

/-- Encode an elliptic-curve public key; the returned length is 0 when the curve
is unknown or the point is the point at infinity. -/
def i2d_EC_PUBKEY (key : EC_KEY) : Encoded :=
  match curves.find? (fun c => c.nid = key.curve_name), key.pub_key with
  | some c, .affine x y =>
    encoded (derElement 0x30 (derElement 0x30 (ecPublicKey ++ c.oid)
      ++ derBitString (0x04 :: (leftPad c.size (BN_bn2bin x) ++ leftPad c.size (BN_bn2bin y)))))
  | _, _ => { len := 0, buf := [] }

/-- Decode the content of the BIT STRING of an elliptic-curve public key. -/
def readECPoint (c : Curve) (s : List Byte) : Option EC_KEY :=
  match s with
  | form :: coords =>
    let x := BN_bin2bn (coords.take c.size)
    let y := BN_bin2bn (coords.drop c.size)
    if form = 0x04 ∧ coords.length = 2 * c.size ∧ c.onCurve x y = true then
      some { curve_name := c.nid, pub_key := .affine x y }
    else none
  | [] => none

/-- Decode a SubjectPublicKeyInfo. -/
def d2i_PUBKEY (s : List Byte) : Option EVP_PKEY :=
  match readElement s with
  | some (tag, body, _) =>
    match readElement body with
    | some (algTag, alg, rest) =>
      match readElement rest with
      | some (bitsTag, bits, _) =>
        match bits with
        | unused :: key =>
          if tag = 0x30 ∧ algTag = 0x30 ∧ bitsTag = 0x03 ∧ unused = 0x00 then
            if alg = rsaAlgorithm then (readRSAPublicKey key).map EVP_PKEY.rsa
            else if alg.take ecPublicKey.length = ecPublicKey then
              match curves.find? (fun c => c.oid = alg.drop ecPublicKey.length) with
              | some c => (readECPoint c key).map EVP_PKEY.ec
              | none => none
            else some EVP_PKEY.other
          else none
        | [] => none
      | none => none
    | none => none
  | none => none

/-- Decode an RSA public key. -/
def d2i_RSA_PUBKEY (s : List Byte) : Option RSA :=
  match d2i_PUBKEY s with
  | some (.rsa key) => some key
  | _ => none

/-- Validate affine coordinates on the curve named by `nid`. -/
def EC_KEY_set_public_key_affine_coordinates (nid : Int) (x y : Nat) : Bool :=
  match curves.find? (fun c => c.nid = nid) with
  | some c => c.onCurve x y
  | none => false

/-- The reference library. -/
def crypto : Crypto :=
  { i2d_RSA_PUBKEY := i2d_RSA_PUBKEY
    d2i_RSA_PUBKEY := d2i_RSA_PUBKEY
    EC_KEY_set_public_key_affine_coordinates := EC_KEY_set_public_key_affine_coordinates
    i2d_EC_PUBKEY := i2d_EC_PUBKEY
    d2i_PUBKEY := d2i_PUBKEY }

/-- The 32 bytes of the x coordinate of the base point of P-256. -/
def p256_Gx : List Byte :=
  [0x6b, 0x17, 0xd1, 0xf2, 0xe1, 0x2c, 0x42, 0x47, 0xf8, 0xbc, 0xe6, 0xe5, 0x63, 0xa4, 0x40, 0xf2,
   0x77, 0x03, 0x7d, 0x81, 0x2d, 0xeb, 0x33, 0xa0, 0xf4, 0xa1, 0x39, 0x45, 0xd8, 0x98, 0xc2, 0x96]

/-- The 32 bytes of the y coordinate of the base point of P-256. -/
def p256_Gy : List Byte :=
  [0x4f, 0xe3, 0x42, 0xe2, 0xfe, 0x1a, 0x7f, 0x9b, 0x8e, 0xe7, 0xeb, 0x4a, 0x7c, 0x0f, 0x9e, 0x16,
   0x2b, 0xce, 0x33, 0x57, 0x6b, 0x31, 0x5e, 0xce, 0xcb, 0xb6, 0x40, 0x68, 0x37, 0xbf, 0x51, 0xf5]

/-- SubjectPublicKeyInfo of the base point of P-256 (91 bytes). -/
def p256_blob : List Byte :=
  [0x30, 0x59, 0x30, 0x13, 0x06, 0x07, 0x2a, 0x86, 0x48, 0xce, 0x3d, 0x02, 0x01,
   0x06, 0x08, 0x2a, 0x86, 0x48, 0xce, 0x3d, 0x03, 0x01, 0x07, 0x03, 0x42, 0x00, 0x04]
    ++ p256_Gx ++ p256_Gy

/-- SubjectPublicKeyInfo of the RSA key with exponent 65537 and modulus `0xc355`. -/
def rsa_blob : List Byte :=
  [0x30, 0x1e, 0x30, 0x0d, 0x06, 0x09, 0x2a, 0x86, 0x48, 0x86, 0xf7, 0x0d, 0x01, 0x01, 0x01,
   0x05, 0x00, 0x03, 0x0d, 0x00, 0x30, 0x0a, 0x02, 0x03, 0x00, 0xc3, 0x55, 0x02, 0x03, 0x01,
   0x00, 0x01]

/-- SubjectPublicKeyInfo of the RSA descriptor with exponent 0 and modulus 1. -/
def rsa_zero_exponent_blob : List Byte :=
  [0x30, 0x1a, 0x30, 0x0d, 0x06, 0x09, 0x2a, 0x86, 0x48, 0x86, 0xf7, 0x0d, 0x01, 0x01, 0x01,
   0x05, 0x00, 0x03, 0x09, 0x00, 0x30, 0x06, 0x02, 0x01, 0x01, 0x02, 0x01, 0x00]

end Reference

/-! ## Facts about the big-number helpers -/

theorem bitLength_le_iff (fuel : Nat) : ∀ (n k : Nat), n ≤ fuel →
    (bitLength fuel n ≤ k ↔ n < 2 ^ k) := by
  induction fuel with
  | zero =>
    intro n k h
    have hn : n = 0 := by omega
    subst hn
    simp [bitLength]
  | succ fuel ih =>
    intro n k h
    by_cases hn : n = 0
    · subst hn
      simp [bitLength]
    · simp only [bitLength, if_neg hn]
      cases k with
      | zero =>
        simp only [pow_zero]
        omega
      | succ k =>
        have h2 : n / 2 ≤ fuel := by omega
        rw [Nat.add_le_add_iff_right, ih (n / 2) k h2, pow_succ]
        omega

theorem BN_num_bits_le_iff (n k : Nat) : BN_num_bits n ≤ k ↔ n < 2 ^ k :=
  bitLength_le_iff n n k (Nat.le_refl n)

/-- The bit length of the model is the bit length `Nat.size` of the library. -/
theorem BN_num_bits_eq_size (n : Nat) : BN_num_bits n = Nat.size n := by
  apply Nat.le_antisymm
  · exact (BN_num_bits_le_iff n _).mpr (Nat.lt_size_self n)
  · exact Nat.size_le.mpr ((BN_num_bits_le_iff n _).mp (Nat.le_refl _))

theorem pow_256_eq (w : Nat) : (256 : Nat) ^ w = 2 ^ (8 * w) := by
  rw [pow_mul]
  norm_num

theorem BN_num_bytes_le_iff (n w : Nat) : BN_num_bytes n ≤ w ↔ n < 256 ^ w := by
  rw [pow_256_eq, ← BN_num_bits_le_iff]
  unfold BN_num_bytes
  omega

theorem lt_pow_BN_num_bytes (n : Nat) : n < 256 ^ BN_num_bytes n :=
  (BN_num_bytes_le_iff n _).mp (Nat.le_refl _)

theorem pow_le_of_lt_BN_num_bytes (n w : Nat) (h : w < BN_num_bytes n) : 256 ^ w ≤ n := by
  by_contra hc
  have := (BN_num_bytes_le_iff n w).mpr (by omega)
  omega

theorem length_bigEndian (k : Nat) : ∀ a : Nat, (bigEndian k a).length = k := by
  induction k with
  | zero => intro a; rfl
  | succ k ih => intro a; simp [bigEndian, ih]

theorem length_BN_bn2bin (n : Nat) : (BN_bn2bin n).length = BN_num_bytes n :=
  length_bigEndian _ _

theorem BN_bin2bn_append (s : List Byte) (b : Byte) :
    BN_bin2bn (s ++ [b]) = BN_bin2bn s * 256 + b.val := by
  simp [BN_bin2bn, List.foldl_append]

theorem BN_bin2bn_lt (s : List Byte) : BN_bin2bn s < 256 ^ s.length := by
  induction s using List.reverseRecOn with
  | nil => simp [BN_bin2bn]
  | append_singleton s b ih =>
    rw [BN_bin2bn_append, List.length_append, List.length_singleton, pow_succ]
    have := b.isLt
    omega

theorem BN_bin2bn_bigEndian (k : Nat) : ∀ a : Nat, BN_bin2bn (bigEndian k a) = a % 256 ^ k := by
  induction k with
  | zero => intro a; simp [bigEndian, BN_bin2bn, Nat.mod_one]
  | succ k ih =>
    intro a
    rw [bigEndian, BN_bin2bn_append, ih, pow_succ', Nat.mod_mul]
    simp only [lowByte]
    ring

/-- Parsing the bytes written by `BN_bn2bin` gives the number back. -/
theorem BN_bin2bn_BN_bn2bin (n : Nat) : BN_bin2bn (BN_bn2bin n) = n := by
  unfold BN_bn2bin
  rw [BN_bin2bn_bigEndian]
  exact Nat.mod_eq_of_lt (lt_pow_BN_num_bytes n)

theorem bigEndian_succ (k : Nat) : ∀ a : Nat,
    bigEndian (k + 1) a = lowByte (a / 256 ^ k) :: bigEndian k a := by
  induction k with
  | zero => intro a; simp [bigEndian]
  | succ k ih =>
    intro a
    rw [bigEndian, ih (a / 256), bigEndian, Nat.div_div_eq_div_mul, pow_succ]
    simp [Nat.mul_comm]

theorem BN_bin2bn_cons (b : Byte) (s : List Byte) :
    BN_bin2bn (b :: s) = b.val * 256 ^ s.length + BN_bin2bn s := by
  induction s using List.reverseRecOn with
  | nil => simp [BN_bin2bn]
  | append_singleton s c ih =>
    rw [← List.cons_append, BN_bin2bn_append, ih, BN_bin2bn_append, List.length_append,
      List.length_singleton, pow_succ]
    ring

theorem bigEndian_BN_bin2bn_add (s : List Byte) : ∀ c : Nat,
    bigEndian s.length (c * 256 ^ s.length + BN_bin2bn s) = s := by
  induction s using List.reverseRecOn with
  | nil => intro c; rfl
  | append_singleton s b ih =>
    intro c
    rw [List.length_append, List.length_singleton, bigEndian, BN_bin2bn_append, pow_succ]
    have hb := b.isLt
    have h0 : c * (256 ^ s.length * 256) + (BN_bin2bn s * 256 + b.val)
        = (c * 256 ^ s.length + BN_bin2bn s) * 256 + b.val := by ring
    rw [h0]
    have h1 : ((c * 256 ^ s.length + BN_bin2bn s) * 256 + b.val) / 256
        = c * 256 ^ s.length + BN_bin2bn s := by omega
    have h2 : lowByte ((c * 256 ^ s.length + BN_bin2bn s) * 256 + b.val) = b := by
      apply Fin.ext
      simp only [lowByte]
      omega
    rw [h1, h2, ih]

theorem BN_num_bytes_cons (b : Byte) (s : List Byte) (hb : b ≠ 0) :
    BN_num_bytes (BN_bin2bn (b :: s)) = s.length + 1 := by
  have hb1 : 1 ≤ b.val := by
    rcases Nat.eq_zero_or_pos b.val with h | h
    · exact absurd (Fin.ext h) hb
    · exact h
  have hlt : BN_bin2bn (b :: s) < 256 ^ (s.length + 1) := BN_bin2bn_lt (b :: s)
  have hge : 256 ^ s.length ≤ BN_bin2bn (b :: s) := by
    rw [BN_bin2bn_cons]
    calc 256 ^ s.length = 1 * 256 ^ s.length := (Nat.one_mul _).symm
      _ ≤ b.val * 256 ^ s.length := Nat.mul_le_mul_right _ hb1
      _ ≤ b.val * 256 ^ s.length + BN_bin2bn s := Nat.le_add_right _ _
  have h1 := (BN_num_bytes_le_iff _ _).mpr hlt
  have h2 : ¬ BN_num_bytes (BN_bin2bn (b :: s)) ≤ s.length := by
    intro h
    have := (BN_num_bytes_le_iff _ _).mp h
    omega
  omega

/-- The bytes `BN_bn2bin` writes for a parsed buffer are the buffer without its
leading zero bytes. -/
theorem BN_bn2bin_BN_bin2bn (s : List Byte) :
    BN_bn2bin (BN_bin2bn s) = stripLeadingZeros s := by
  induction s with
  | nil => rfl
  | cons b s ih =>
    by_cases hb : b = 0
    · have h0 : BN_bin2bn (b :: s) = BN_bin2bn s := by
        rw [BN_bin2bn_cons, hb]
        simp
      rw [h0, ih]
      simp [stripLeadingZeros, hb]
    · simp only [stripLeadingZeros, if_neg hb]
      unfold BN_bn2bin
      rw [BN_num_bytes_cons b s hb, bigEndian_succ, BN_bin2bn_cons, bigEndian_BN_bin2bn_add]
      congr 1
      apply Fin.ext
      simp only [lowByte]
      have hlt := BN_bin2bn_lt s
      have hpos : 0 < 256 ^ s.length := by positivity
      rw [Nat.add_comm, Nat.add_mul_div_right _ _ hpos, Nat.div_eq_of_lt hlt, Nat.zero_add]
      exact Nat.mod_eq_of_lt b.isLt

/-- The encoding written by `BN_bn2bin` is minimal: it never starts with a zero
byte. -/
theorem head_BN_bn2bin_ne_zero (n : Nat) : (BN_bn2bin n).head? ≠ some 0 := by
  unfold BN_bn2bin
  cases hk : BN_num_bytes n with
  | zero => simp [bigEndian]
  | succ k =>
    rw [bigEndian_succ]
    simp only [List.head?_cons, ne_eq, Option.some.injEq]
    intro h
    have hv := congrArg Fin.val h
    simp only [lowByte, Fin.val_zero] at hv
    have hge : 256 ^ k ≤ n := pow_le_of_lt_BN_num_bytes n k (by omega)
    have hlt : n < 256 ^ (k + 1) := by
      have := lt_pow_BN_num_bytes n
      rwa [hk] at this
    have hpos : 0 < 256 ^ k := by positivity
    have hq1 : 1 ≤ n / 256 ^ k := (Nat.le_div_iff_mul_le hpos).mpr (by omega)
    have hq2 : n / 256 ^ k < 256 := by
      rw [Nat.div_lt_iff_lt_mul hpos, Nat.mul_comm, ← pow_succ]
      exact hlt
    omega

theorem BN_bin2bn_replicate_zero_append (k : Nat) (s : List Byte) :
    BN_bin2bn (List.replicate k 0 ++ s) = BN_bin2bn s := by
  induction k with
  | zero => rfl
  | succ k ih =>
    rw [List.replicate_succ, List.cons_append, BN_bin2bn_cons, ih]
    simp

/-! ## Facts about raw vectors -/

theorem contents_map_some (l : List Byte) : contents (l.map some) = .ok l := by
  induction l with
  | nil => rfl
  | cons b l ih => simp [contents, ih]

theorem allocVector_natCast (w : Nat) :
    allocVector (w : Int) = .ok (List.replicate w none) := by
  simp [allocVector]

theorem to_size_t_natCast (d : Nat) (h : d < 2 ^ 64) : to_size_t (d : Int) = d := by
  unfold to_size_t
  have h1 : ((d : Int) % 2 ^ 64) = (d : Int) := by
    apply Int.emod_eq_of_lt
    · exact Int.natCast_nonneg d
    · exact_mod_cast h
  rw [h1]
  exact Int.toNat_natCast d

theorem memset_fresh (w d : Nat) (c : Byte) (hd : d ≤ w) (h64 : d < 2 ^ 64) :
    memset (List.replicate w none) 0 c (d : Int)
      = .ok (List.replicate d (some c) ++ List.replicate (w - d) none) := by
  unfold memset
  rw [to_size_t_natCast d h64]
  have hc : (0 : Int) ≤ 0 ∧ (0 : Int) + (d : Int)
      ≤ ((List.replicate w (none : Option Byte)).length : Int) := by
    simp only [List.length_replicate]
    omega
  rw [if_pos hc]
  simp

theorem writeAt_tail (d : Nat) (c : Byte) (data : List Byte) :
    writeAt (List.replicate d (some c) ++ List.replicate data.length none) ((0 : Int) + d) data
      = .ok (List.replicate d (some c) ++ data.map some) := by
  unfold writeAt
  have hc : (0 : Int) ≤ 0 + (d : Int) ∧ (0 : Int) + (d : Int) + (data.length : Int)
      ≤ ((List.replicate d (some c) ++ List.replicate data.length (none : Option Byte)).length
          : Int) := by
    simp only [List.length_append, List.length_replicate]
    push_cast
    omega
  rw [if_pos hc]
  have h0 : ((0 : Int) + (d : Int)).toNat = d := by simp
  rw [h0]
  simp [List.take_append_eq_append_take, List.drop_append_eq_append_drop]

theorem writeAt_fresh (data : List Byte) :
    writeAt (List.replicate data.length none) 0 data = .ok (data.map some) := by
  unfold writeAt
  have hc : (0 : Int) ≤ 0 ∧ (0 : Int) + (data.length : Int)
      ≤ ((List.replicate data.length (none : Option Byte)).length : Int) := by
    simp
  rw [if_pos hc]
  simp

/-- When the encoder succeeded, the tail of a builder returns the blob. -/
theorem copyEncoded_of_yields (enc : Encoded) (der : List Byte) (h : enc.yields der) :
    copyEncoded enc = .ok der := by
  obtain ⟨hlen, hbuf, hpos, hint⟩ := h
  unfold copyEncoded
  have hne : enc.len ≠ 0 := by omega
  have h64 : der.length < 2 ^ 64 := by
    have : (2 : Nat) ^ 31 < 2 ^ 64 := by norm_num
    omega
  simp only [bail, if_neg hne, bind, Except.bind]
  rw [hlen, allocVector_natCast]
  simp only []
  unfold memcpy
  rw [to_size_t_natCast _ h64, hbuf, if_pos (Nat.le_refl _), List.take_length, writeAt_fresh]
  simp only []
  exact contents_map_some der

/-- When the encoder returns 0, the tail of a builder raises the error of `bail`. -/
theorem copyEncoded_of_len_zero (enc : Encoded) (h : enc.len = 0) :
    copyEncoded enc = .error .bail := by
  unfold copyEncoded
  simp [bail, h, bind, Except.bind]

/-- The value of `bignum_to_r_size` once the width `w` in force is known and is
large enough. -/
theorem bignum_to_r_size_eq (n : Nat) (bytes : Int) (w : Nat)
    (hw : (if bytes = 0 then ((BN_num_bits n : Int) / 8) + 1 else bytes) = (w : Int))
    (hle : BN_num_bytes n ≤ w) (h64 : w - BN_num_bytes n < 2 ^ 64) :
    bignum_to_r_size n bytes
      = .ok (List.replicate (w - BN_num_bytes n) 0 ++ BN_bn2bin n) := by
  unfold bignum_to_r_size
  simp only [hw]
  have hdiff : (w : Int) - (BN_num_bytes n : Int) = ((w - BN_num_bytes n : Nat) : Int) := by
    omega
  rw [hdiff, allocVector_natCast]
  simp only [bind, Except.bind]
  rw [memset_fresh w (w - BN_num_bytes n) 0 (by omega) h64]
  simp only []
  have hlen : w - (w - BN_num_bytes n) = (BN_bn2bin n).length := by
    rw [length_BN_bn2bin]
    omega
  rw [hlen, writeAt_tail]
  simp only []
  have hz : List.replicate (w - BN_num_bytes n) (some (0 : Byte))
      = (List.replicate (w - BN_num_bytes n) (0 : Byte)).map some := by simp
  rw [hz, ← List.map_append, contents_map_some]

/-- With the width omitted the padding is one byte when the bit length is a
multiple of eight and none otherwise. -/
theorem default_width_padding (n : Nat) :
    BN_num_bits n / 8 + 1 - BN_num_bytes n = if BN_num_bits n % 8 = 0 then 1 else 0 := by
  unfold BN_num_bytes
  split <;> omega

theorem bignum_to_r_eq (n : Nat) :
    bignum_to_r n
      = .ok (List.replicate (BN_num_bits n / 8 + 1 - BN_num_bytes n) 0 ++ BN_bn2bin n) := by
  unfold bignum_to_r
  apply bignum_to_r_size_eq n 0 (BN_num_bits n / 8 + 1)
  · simp
  · unfold BN_num_bytes
    omega
  · rw [default_width_padding]
    split <;> norm_num

theorem stripLeadingZeros_of_head (s : List Byte) (h : s.head? ≠ some 0) :
    stripLeadingZeros s = s := by
  cases s with
  | nil => rfl
  | cons b rest =>
    have hb : b ≠ 0 := by
      intro hb
      apply h
      simp [hb]
    simp [stripLeadingZeros, hb]

theorem BN_bin2bn_leftPad (w : Nat) (s : List Byte) : BN_bin2bn (leftPad w s) = BN_bin2bn s :=
  BN_bin2bn_replicate_zero_append _ _

theorem BN_bin2bn_stripLeadingZeros (s : List Byte) :
    BN_bin2bn (stripLeadingZeros s) = BN_bin2bn s := by
  rw [← BN_bn2bin_BN_bin2bn, BN_bin2bn_BN_bn2bin]

/-- The width of each supported curve holds every number below two to the field
size, and `bignum_to_r_size` pads such a number to that width. -/
theorem bignum_to_r_size_keysize (nid : Int) (n : Nat)
    (hnid : nid = NID_X9_62_prime256v1 ∨ nid = NID_secp384r1 ∨ nid = NID_secp521r1)
    (hn : n < 2 ^ field_bits nid) :
    ∃ w : Nat, nid_keysize nid = (w : Int) ∧ w = (field_bits nid + 7) / 8 ∧
      BN_num_bytes n ≤ w ∧
      bignum_to_r_size n (nid_keysize nid) = .ok (leftPad w (BN_bn2bin n)) := by
  obtain ⟨w, hw, hbits, hw0, hw31⟩ : ∃ w : Nat, nid_keysize nid = (w : Int) ∧
      field_bits nid ≤ 8 * w ∧ w ≠ 0 ∧ w = (field_bits nid + 7) / 8 := by
    rcases hnid with h | h | h
    · exact ⟨32, by rw [h]; decide, by rw [h]; decide, by decide, by rw [h]; decide⟩
    · exact ⟨48, by rw [h]; decide, by rw [h]; decide, by decide, by rw [h]; decide⟩
    · exact ⟨66, by rw [h]; decide, by rw [h]; decide, by decide, by rw [h]; decide⟩
  have hfit : BN_num_bytes n ≤ w := by
    rw [BN_num_bytes_le_iff, pow_256_eq]
    exact lt_of_lt_of_le hn (Nat.pow_le_pow_right (by decide) hbits)
  have hsmall : w ≤ 66 := by
    have : field_bits nid ≤ 521 := by
      rcases hnid with h | h | h <;> rw [h] <;> decide
    omega
  refine ⟨w, hw, hw31, hfit, ?_⟩
  rw [hw]
  unfold leftPad
  rw [length_BN_bn2bin]
  apply bignum_to_r_size_eq n (w : Int) w
  · have : (w : Int) ≠ 0 := by omega
    simp [this]
  · exact hfit
  · have : (66 : Nat) < 2 ^ 64 := by norm_num
    omega

theorem R_rsa_build_eq (lib : Crypto) (e m : List Byte) :
    R_rsa_build lib e m
      = copyEncoded (lib.i2d_RSA_PUBKEY { e := BN_bin2bn e, n := BN_bin2bn m }) := rfl

theorem R_rsa_decompose_of_decoded (lib : Crypto) (bin : List Byte) (key : RSA)
    (h : lib.d2i_RSA_PUBKEY bin = some key) :
    R_rsa_decompose lib bin
      = .ok [leftPad (BN_num_bits key.e / 8 + 1) (BN_bn2bin key.e),
             leftPad (BN_num_bits key.n / 8 + 1) (BN_bn2bin key.n)] := by
  unfold R_rsa_decompose
  simp only [h, notNull, bail, bind, Except.bind, bignum_to_r_eq, leftPad, length_BN_bn2bin]
  rfl

/-- C1: for a number `n` and an explicit width `W` (a C `int`, so below `2^31`)
with `W ≥ 1` and `W ≥ BN_num_bytes n`, `bignum_to_r_size n W` returns a buffer
of exactly `W` bytes: `W - BN_num_bytes n` zero bytes followed by the bytes of
`BN_bn2bin n`, which are `BN_num_bytes n = (BN_num_bits n + 7) / 8` bytes that
parse back to `n` and do not start with a zero byte (the minimal big-endian
encoding). -/
theorem bignum_to_r_size_pads_to_width (n W : Nat) (hW : 1 ≤ W)
    (hfit : BN_num_bytes n ≤ W) (hint : W < 2 ^ 31) :
    ∃ buf : List Byte,
      bignum_to_r_size n (W : Int) = .ok buf ∧
      buf.length = W ∧
      buf.take (W - BN_num_bytes n) = List.replicate (W - BN_num_bytes n) 0 ∧
      buf.drop (W - BN_num_bytes n) = BN_bn2bin n ∧
      (BN_bn2bin n).length = BN_num_bytes n ∧
      BN_num_bytes n = (BN_num_bits n + 7) / 8 ∧
      BN_bin2bn (BN_bn2bin n) = n ∧
      (BN_bn2bin n).head? ≠ some 0 := by
  refine ⟨List.replicate (W - BN_num_bytes n) 0 ++ BN_bn2bin n, ?_, ?_, ?_, ?_,
    length_BN_bn2bin n, rfl, BN_bin2bn_BN_bn2bin n, head_BN_bn2bin_ne_zero n⟩
  · apply bignum_to_r_size_eq n (W : Int) W
    · have : (W : Int) ≠ 0 := by omega
      simp [this]
    · exact hfit
    · have : (2 : Nat) ^ 31 < 2 ^ 64 := by norm_num
      omega
  · rw [List.length_append, List.length_replicate, length_BN_bn2bin]
    omega
  · simp [List.take_append_eq_append_take]
  · simp [List.drop_append_eq_append_drop]

theorem bignum_to_r_size_pads_to_width_witness :
    ∃ buf : List Byte,
      bignum_to_r_size 0x1234 ((4 : Nat) : Int) = .ok buf ∧
      buf.length = 4 ∧
      buf.take (4 - BN_num_bytes 0x1234) = List.replicate (4 - BN_num_bytes 0x1234) 0 ∧
      buf.drop (4 - BN_num_bytes 0x1234) = BN_bn2bin 0x1234 ∧
      (BN_bn2bin 0x1234).length = BN_num_bytes 0x1234 ∧
      BN_num_bytes 0x1234 = (BN_num_bits 0x1234 + 7) / 8 ∧
      BN_bin2bn (BN_bn2bin 0x1234) = 0x1234 ∧
      (BN_bn2bin 0x1234).head? ≠ some 0 :=
  bignum_to_r_size_pads_to_width 0x1234 4 (by decide) (by decide) (by decide)

/-- C3: with the width omitted (`bignum_to_r`, that is `bytes = 0`), for every
number `n` the result is a buffer of exactly `BN_num_bits n / 8 + 1` bytes that
parses back to `n`: the bytes of `BN_bn2bin n` preceded by one zero byte when
the bit length is a multiple of eight (one `0x00` for `n = 0`) and by none
otherwise. -/
theorem bignum_to_r_default_width (n : Nat) :
    ∃ buf : List Byte,
      bignum_to_r n = .ok buf ∧
      bignum_to_r_size n 0 = .ok buf ∧
      buf.length = BN_num_bits n / 8 + 1 ∧
      buf = List.replicate (if BN_num_bits n % 8 = 0 then 1 else 0) 0 ++ BN_bn2bin n ∧
      buf = leftPad (BN_num_bits n / 8 + 1) (BN_bn2bin n) ∧
      BN_bin2bn buf = n ∧
      (BN_bn2bin n).head? ≠ some 0 ∧
      (n = 0 → buf = [0]) := by
  refine ⟨List.replicate (BN_num_bits n / 8 + 1 - BN_num_bytes n) 0 ++ BN_bn2bin n,
    bignum_to_r_eq n, bignum_to_r_eq n, ?_, ?_, ?_, ?_, head_BN_bn2bin_ne_zero n, ?_⟩
  · rw [List.length_append, List.length_replicate, length_BN_bn2bin]
    unfold BN_num_bytes
    omega
  · rw [default_width_padding]
  · unfold leftPad
    rw [length_BN_bn2bin]
  · rw [BN_bin2bn_replicate_zero_append, BN_bin2bn_BN_bn2bin]
  · intro h
    subst h
    rfl

/-- Whatever the number, a positive width below `BN_num_bytes` makes `diff`
negative and the call leaves the defined behaviour of C: no R error is raised
and no buffer is returned. -/
theorem bignum_to_r_size_small_width (n W : Nat) (hW : 0 < W) (hsmall : W < BN_num_bytes n) :
    bignum_to_r_size n (W : Int) = .error .undefinedBehaviour := by
  unfold bignum_to_r_size
  have hW0 : (W : Int) ≠ 0 := by omega
  simp only [if_neg hW0, allocVector_natCast, bind, Except.bind]
  cases hm : memset (List.replicate W none) 0 0 ((W : Int) - (BN_num_bytes n : Int)) with
  | error f =>
    unfold memset at hm
    split at hm
    · cases hm
    · cases hm
      rfl
  | ok buf =>
    simp only []
    unfold writeAt
    have hneg : ¬ ((0 : Int) ≤ 0 + ((W : Int) - (BN_num_bytes n : Int)) ∧
        (0 : Int) + ((W : Int) - (BN_num_bytes n : Int)) + ((BN_bn2bin n).length : Int)
          ≤ (buf.length : Int)) := by
      intro h
      omega
    rw [if_neg hneg]

/-- C6: the two curve tables are inverse to each other on the three names
`P-256`, `P-384`, `P-521` and the three identifiers, and the three identifiers
are pairwise distinct and non-zero. -/
theorem curve_tables_inverse :
    my_nid2nist (my_nist2nid "P-256") = "P-256" ∧
    my_nid2nist (my_nist2nid "P-384") = "P-384" ∧
    my_nid2nist (my_nist2nid "P-521") = "P-521" ∧
    my_nist2nid (my_nid2nist NID_X9_62_prime256v1) = NID_X9_62_prime256v1 ∧
    my_nist2nid (my_nid2nist NID_secp384r1) = NID_secp384r1 ∧
    my_nist2nid (my_nid2nist NID_secp521r1) = NID_secp521r1 ∧
    my_nist2nid "P-256" = NID_X9_62_prime256v1 ∧
    my_nist2nid "P-384" = NID_secp384r1 ∧
    my_nist2nid "P-521" = NID_secp521r1 ∧
    my_nist2nid "P-256" ≠ my_nist2nid "P-384" ∧
    my_nist2nid "P-256" ≠ my_nist2nid "P-521" ∧
    my_nist2nid "P-384" ≠ my_nist2nid "P-521" ∧
    my_nist2nid "P-256" ≠ 0 ∧
    my_nist2nid "P-384" ≠ 0 ∧
    my_nist2nid "P-521" ≠ 0 := by
  decide

/-- C7: for a name that is none of `P-256`, `P-384`, `P-521`, `my_nist2nid`
returns 0 (so none of the three identifiers), and `R_ecdsa_build` ends in the R
error raised by `bail(nid)` for every `x` and `y`, whatever the library does. -/
theorem unsupported_curve_rejected (name : String)
    (h256 : name ≠ "P-256") (h384 : name ≠ "P-384") (h521 : name ≠ "P-521") :
    my_nist2nid name = 0 ∧
    my_nist2nid name ≠ NID_X9_62_prime256v1 ∧
    my_nist2nid name ≠ NID_secp384r1 ∧
    my_nist2nid name ≠ NID_secp521r1 ∧
    ∀ (lib : Crypto) (x y : List Byte),
      R_ecdsa_build lib x y name = .error .bail ∧ Fault.isRError .bail = true := by
  have h0 : my_nist2nid name = 0 := by
    simp [my_nist2nid, h256, h384, h521]
  refine ⟨h0, ?_, ?_, ?_, ?_⟩
  · rw [h0]; decide
  · rw [h0]; decide
  · rw [h0]; decide
  · intro lib x y
    refine ⟨?_, rfl⟩
    unfold R_ecdsa_build
    rw [h0]
    rfl

theorem unsupported_curve_rejected_witness :
    "secp256k1" ≠ "P-256" ∧ "secp256k1" ≠ "P-384" ∧ "secp256k1" ≠ "P-521" ∧
    (my_nist2nid "secp256k1" = 0 ∧
     my_nist2nid "secp256k1" ≠ NID_X9_62_prime256v1 ∧
     my_nist2nid "secp256k1" ≠ NID_secp384r1 ∧
     my_nist2nid "secp256k1" ≠ NID_secp521r1 ∧
     ∀ (lib : Crypto) (x y : List Byte),
       R_ecdsa_build lib x y "secp256k1" = .error .bail ∧ Fault.isRError .bail = true) :=
  ⟨by decide, by decide, by decide,
    unsupported_curve_rejected "secp256k1" (by decide) (by decide) (by decide)⟩

/-- The names quoted by the specification as unsupported are all mapped to 0. -/
theorem unsupported_names_examples :
    my_nist2nid "secp256k1" = 0 ∧ my_nist2nid "p-256" = 0 ∧
    my_nist2nid "P-256 " = 0 ∧ my_nist2nid "" = 0 := by
  decide

/-- C10: for each of the three identifiers and every `n` below `2 ^ b`, `b` the
field size in bits (256, 384, 521), `BN_num_bytes n` is at most `nid_keysize`
(32, 48, 66, the number of bytes of `b` bits), so `diff` is not negative, and
`bignum_to_r_size n keysize` returns a buffer of `keysize` bytes that parses
back to `n`. -/
theorem coordinate_width_sufficient (nid : Int) (n : Nat)
    (hnid : nid = NID_X9_62_prime256v1 ∨ nid = NID_secp384r1 ∨ nid = NID_secp521r1)
    (hn : n < 2 ^ field_bits nid) :
    nid_keysize nid = (((field_bits nid + 7) / 8 : Nat) : Int) ∧
    (BN_num_bytes n : Int) ≤ nid_keysize nid ∧
    0 ≤ nid_keysize nid - (BN_num_bytes n : Int) ∧
    ∃ buf : List Byte,
      bignum_to_r_size n (nid_keysize nid) = .ok buf ∧
      (buf.length : Int) = nid_keysize nid ∧
      buf = leftPad (nid_keysize nid).toNat (BN_bn2bin n) ∧
      BN_bin2bn buf = n := by
  obtain ⟨w, hw, hw8, hfit, hval⟩ := bignum_to_r_size_keysize nid n hnid hn
  refine ⟨by rw [hw, hw8], by rw [hw]; exact_mod_cast hfit, by rw [hw]; omega,
    leftPad w (BN_bn2bin n), hval, ?_, ?_, ?_⟩
  · rw [hw]
    unfold leftPad
    rw [List.length_append, List.length_replicate, length_BN_bn2bin]
    omega
  · rw [hw]
    simp
  · rw [BN_bin2bn_leftPad, BN_bin2bn_BN_bn2bin]

theorem coordinate_width_sufficient_witness :
    (NID_secp521r1 = NID_X9_62_prime256v1 ∨ NID_secp521r1 = NID_secp384r1
      ∨ NID_secp521r1 = NID_secp521r1) ∧
    2 ^ 521 - 1 < 2 ^ field_bits NID_secp521r1 ∧
    (nid_keysize NID_secp521r1 = (((field_bits NID_secp521r1 + 7) / 8 : Nat) : Int) ∧
     (BN_num_bytes (2 ^ 521 - 1) : Int) ≤ nid_keysize NID_secp521r1 ∧
     0 ≤ nid_keysize NID_secp521r1 - (BN_num_bytes (2 ^ 521 - 1) : Int) ∧
     ∃ buf : List Byte,
       bignum_to_r_size (2 ^ 521 - 1) (nid_keysize NID_secp521r1) = .ok buf ∧
       (buf.length : Int) = nid_keysize NID_secp521r1 ∧
       buf = leftPad (nid_keysize NID_secp521r1).toNat (BN_bn2bin (2 ^ 521 - 1)) ∧
       BN_bin2bn buf = 2 ^ 521 - 1) :=
  have hn : 2 ^ 521 - 1 < 2 ^ field_bits NID_secp521r1 :=
    Nat.sub_lt (Nat.pow_pos (by decide)) (by decide)
  ⟨by decide, hn, coordinate_width_sufficient NID_secp521r1 (2 ^ 521 - 1) (by decide) hn⟩

/-- C4: when the encoder succeeds on the descriptor parsed from `e` and `m` and
the decoder gives that descriptor back, `R_rsa_decompose (R_rsa_build e m)` is a
list of two buffers, exponent first and modulus second, that denote the same
numbers as `e` and `m` and are `e` and `m` without their leading zero bytes,
left-padded with zero bytes to `BN_num_bits / 8 + 1` bytes; a modulus whose
first byte is not zero has nothing to strip. The buffers need not be
non-empty. -/
theorem rsa_round_trip (lib : Crypto) (e m der : List Byte)
    (htop : m.head? ≠ some 0)
    (henc : (lib.i2d_RSA_PUBKEY { e := BN_bin2bn e, n := BN_bin2bn m }).yields der)
    (hdec : lib.d2i_RSA_PUBKEY der = some { e := BN_bin2bn e, n := BN_bin2bn m }) :
    ∃ E M : List Byte,
      R_rsa_build lib e m = .ok der ∧
      R_rsa_decompose lib der = .ok [E, M] ∧
      BN_bin2bn E = BN_bin2bn e ∧
      BN_bin2bn M = BN_bin2bn m ∧
      E = leftPad (BN_num_bits (BN_bin2bn e) / 8 + 1) (stripLeadingZeros e) ∧
      M = leftPad (BN_num_bits (BN_bin2bn m) / 8 + 1) (stripLeadingZeros m) ∧
      E.length = BN_num_bits (BN_bin2bn e) / 8 + 1 ∧
      M.length = BN_num_bits (BN_bin2bn m) / 8 + 1 ∧
      stripLeadingZeros m = m := by
  have hlen : ∀ s : List Byte,
      (leftPad (BN_num_bits (BN_bin2bn s) / 8 + 1) (stripLeadingZeros s)).length
        = BN_num_bits (BN_bin2bn s) / 8 + 1 := by
    intro s
    unfold leftPad
    rw [List.length_append, List.length_replicate, ← BN_bn2bin_BN_bin2bn, length_BN_bn2bin]
    unfold BN_num_bytes
    omega
  refine ⟨leftPad (BN_num_bits (BN_bin2bn e) / 8 + 1) (stripLeadingZeros e),
    leftPad (BN_num_bits (BN_bin2bn m) / 8 + 1) (stripLeadingZeros m), ?_, ?_, ?_, ?_, rfl, rfl,
    hlen e, hlen m, stripLeadingZeros_of_head m htop⟩
  · rw [R_rsa_build_eq]
    exact copyEncoded_of_yields _ _ henc
  · rw [R_rsa_decompose_of_decoded lib der _ hdec]
    simp only [BN_bn2bin_BN_bin2bn]
  · rw [BN_bin2bn_leftPad, BN_bin2bn_stripLeadingZeros]
  · rw [BN_bin2bn_leftPad, BN_bin2bn_stripLeadingZeros]

theorem rsa_round_trip_witness :
    ([0xc3, 0x55] : List Byte).head? ≠ some 0 ∧
    (Reference.crypto.i2d_RSA_PUBKEY
      { e := BN_bin2bn [0x01, 0x00, 0x01], n := BN_bin2bn [0xc3, 0x55] }).yields
        Reference.rsa_blob ∧
    Reference.crypto.d2i_RSA_PUBKEY Reference.rsa_blob
      = some { e := BN_bin2bn [0x01, 0x00, 0x01], n := BN_bin2bn [0xc3, 0x55] } ∧
    ∃ E M : List Byte,
      R_rsa_build Reference.crypto [0x01, 0x00, 0x01] [0xc3, 0x55] = .ok Reference.rsa_blob ∧
      R_rsa_decompose Reference.crypto Reference.rsa_blob = .ok [E, M] ∧
      BN_bin2bn E = BN_bin2bn [0x01, 0x00, 0x01] ∧
      BN_bin2bn M = BN_bin2bn [0xc3, 0x55] ∧
      E = leftPad (BN_num_bits (BN_bin2bn [0x01, 0x00, 0x01]) / 8 + 1)
            (stripLeadingZeros [0x01, 0x00, 0x01]) ∧
      M = leftPad (BN_num_bits (BN_bin2bn [0xc3, 0x55]) / 8 + 1)
            (stripLeadingZeros [0xc3, 0x55]) ∧
      E.length = BN_num_bits (BN_bin2bn [0x01, 0x00, 0x01]) / 8 + 1 ∧
      M.length = BN_num_bits (BN_bin2bn [0xc3, 0x55]) / 8 + 1 ∧
      stripLeadingZeros [0xc3, 0x55] = ([0xc3, 0x55] : List Byte) :=
  ⟨by decide, by decide, by decide,
    rsa_round_trip Reference.crypto [0x01, 0x00, 0x01] [0xc3, 0x55] Reference.rsa_blob
      (by decide) (by decide) (by decide)⟩

/-- The round trip above, evaluated: the modulus `c3 55` comes back as
`00 c3 55`, the exponent `01 00 01` unchanged. -/
theorem rsa_round_trip_example :
    R_rsa_decompose Reference.crypto Reference.rsa_blob
      = .ok [[0x01, 0x00, 0x01], [0x00, 0xc3, 0x55]] := by
  decide

/-- C9 as stated fails: with the empty exponent buffer and the modulus buffer
`01`, `R_rsa_build` on the reference library returns DER bytes (the descriptor
with exponent 0), so not every pair with an empty buffer is rejected. -/
theorem rsa_build_empty_not_rejected :
    ([] : List Byte).length = 0 ∧
    R_rsa_build Reference.crypto [] [0x01] = .ok Reference.rsa_zero_exponent_blob ∧
    ¬ (∃ f : Fault, R_rsa_build Reference.crypto [] [0x01] = .error f) := by
  have hok : R_rsa_build Reference.crypto [] [0x01] = .ok Reference.rsa_zero_exponent_blob := by
    decide
  refine ⟨rfl, hok, ?_⟩
  rintro ⟨f, hf⟩
  rw [hok] at hf
  cases hf

/-- C9 amended: `R_rsa_build` does not look at the lengths of its buffers. When
a buffer is empty it is parsed as the number 0, the call ends as it does for the
same buffers with a zero byte in front, it returns the DER bytes whenever the
encoder succeeds on that descriptor, and it raises the error of `bail` when the
encoder returns length 0. -/
theorem rsa_build_empty_parsed_as_zero (lib : Crypto) (e m : List Byte)
    (hempty : e.length = 0 ∨ m.length = 0) :
    (BN_bin2bn e = 0 ∨ BN_bin2bn m = 0) ∧
    R_rsa_build lib e m = R_rsa_build lib (0 :: e) (0 :: m) ∧
    (∀ der : List Byte,
      (lib.i2d_RSA_PUBKEY { e := BN_bin2bn e, n := BN_bin2bn m }).yields der →
        R_rsa_build lib e m = .ok der) ∧
    ((lib.i2d_RSA_PUBKEY { e := BN_bin2bn e, n := BN_bin2bn m }).len = 0 →
        R_rsa_build lib e m = .error .bail) := by
  have hz : ∀ s : List Byte, BN_bin2bn (0 :: s) = BN_bin2bn s := by
    intro s
    rw [BN_bin2bn_cons]
    simp
  refine ⟨?_, ?_, ?_, ?_⟩
  · rcases hempty with h | h
    · left
      rw [List.length_eq_zero] at h
      rw [h]
      rfl
    · right
      rw [List.length_eq_zero] at h
      rw [h]
      rfl
  · rw [R_rsa_build_eq, R_rsa_build_eq, hz, hz]
  · intro der hder
    rw [R_rsa_build_eq]
    exact copyEncoded_of_yields _ _ hder
  · intro hlen
    rw [R_rsa_build_eq]
    exact copyEncoded_of_len_zero _ hlen

theorem rsa_build_empty_parsed_as_zero_witness :
    (([] : List Byte).length = 0 ∨ ([0x01] : List Byte).length = 0) ∧
    ((BN_bin2bn [] = 0 ∨ BN_bin2bn [0x01] = 0) ∧
     R_rsa_build Reference.crypto [] [0x01] = R_rsa_build Reference.crypto [0] [0, 0x01] ∧
     (∀ der : List Byte,
       (Reference.crypto.i2d_RSA_PUBKEY { e := BN_bin2bn [], n := BN_bin2bn [0x01] }).yields der →
         R_rsa_build Reference.crypto [] [0x01] = .ok der) ∧
     ((Reference.crypto.i2d_RSA_PUBKEY { e := BN_bin2bn [], n := BN_bin2bn [0x01] }).len = 0 →
         R_rsa_build Reference.crypto [] [0x01] = .error .bail)) :=
  ⟨Or.inl rfl, rsa_build_empty_parsed_as_zero Reference.crypto [] [0x01] (Or.inl rfl)⟩

set_option maxRecDepth 100000

/-- The round trip above, evaluated on the base point of P-256: the blob has the
91 bytes of an uncompressed P-256 public key and decomposes into the name and
the two 32-byte coordinates. -/
theorem ecdsa_round_trip_example :
    Reference.p256_blob.length = 91 ∧
    R_ecdsa_decompose Reference.crypto Reference.p256_blob
      = .ok { name := "P-256", x := Reference.p256_Gx, y := Reference.p256_Gy } := by
  decide

end Openssh
